import Mathlib

/-!
Verification of the strategy & portfolio decision engine of the
`algo_trading` repository against its natural-language specification.

The Python sources are shallowly embedded:

* `portfolio_manager.py` — the SQLite-backed ledger becomes a pure state
  (`PortfolioState`) holding an association list of holdings (the table has a
  UNIQUE constraint on `symbol`) and an append-only trade-history list;
  `record_trade` becomes a pure state transformer.  A transaction that Python
  rolls back (insufficient SELL, or the `ZeroDivisionError` raised when a BUY
  makes the total quantity zero, caught by the surrounding `except`) returns
  the original state.  Prices are embedded as `ℚ`, quantities as `ℤ`.
* `engine.py` — the session-IV tracker (`self.session_iv_tracker`, a dict
  keyed by index name only), the per-day fired guard
  (`self.expiry_trade_fired_today`, a dict mapping index name to a date), the
  expiry-straddle strategy and the value strategy become pure functions; the
  trades the strategy passes to `record_trade` are returned as a list.
* `pricing_model.py` — `black_scholes` is embedded over `ℝ`, with `scipy`'s
  `norm.cdf` as the standard normal CDF `Phi` defined by its integral; the
  exceptions the Python `try` block catches (`ValueError` from `log` on a
  non-positive argument, `ZeroDivisionError`) become explicit guards that
  return `0`.
-/

namespace AlgoTrading

/-! ## Ledger state (`portfolio_manager.py`) -/

/-- A row of the `holdings` table (symbol is the association-list key). -/
structure Holding where
  quantity : ℤ
  average_price : ℚ
deriving DecidableEq, Repr

/-- A row of the `trade_history` table. -/
structure TradeRecord where
  symbol : String
  trade_type : String
  quantity : ℤ
  price : ℚ
  reason : String
deriving DecidableEq, Repr

/-- The persistent ledger: `holdings` keyed by symbol (unique constraint) and
the append-only `trade_history`. -/
structure PortfolioState where
  holdings : List (String × Holding)
  history : List TradeRecord
deriving DecidableEq, Repr

/-- Python's `str.upper()` on the ASCII symbol/side strings used by the bot:
upper-case every character.  (Identical to `String.toUpper`, spelled out so
that it evaluates inside the kernel.) -/
def pyUpper (s : String) : String := String.mk (s.data.map Char.toUpper)

/-- First-match lookup in an association list keyed by `String`
(`session.query(...).filter_by(symbol=symbol).first()`, `dict.get`). -/
def lookupKey {α : Type} : List (String × α) → String → Option α
  | [], _ => none
  | p :: rest, sym => if p.1 = sym then some p.2 else lookupKey rest sym

/-- In-place mutation of the row whose key is `sym` (the ORM mutates the
queried `holding` object). -/
def updateHolding (l : List (String × Holding)) (sym : String) (h : Holding) :
    List (String × Holding) :=
  l.map (fun p => if p.1 = sym then (sym, h) else p)

/-- `session.delete(holding)`: remove the row keyed by `sym`. -/
def removeHolding (l : List (String × Holding)) (sym : String) :
    List (String × Holding) :=
  l.filter (fun p => p.1 ≠ sym)

/-- `PortfolioManager.record_trade` (portfolio_manager.py lines 83-149).

The Python method, inside one transaction: append a history row carrying
`trade_type.upper()`; then on BUY either merge into the existing holding
(weighted-average price) or insert a new one; on SELL reject (rollback,
returning the unchanged state) when the holding is missing or too small,
otherwise decrement and delete the row when the quantity reaches zero.
A BUY that makes `new_quantity = 0` raises `ZeroDivisionError` in Python,
which the `except` clause turns into a rollback; that path also returns the
unchanged state.  Any other (upper-cased) `trade_type` matches neither
branch, so only the history append is committed. -/
def record_trade (st : PortfolioState) (symbol trade_type : String)
    (quantity : ℤ) (price : ℚ) (reason : String) : PortfolioState :=
  let tt := pyUpper trade_type
  let newTrade : TradeRecord :=
    { symbol := symbol, trade_type := tt, quantity := quantity,
      price := price, reason := reason }
  let holding := lookupKey st.holdings symbol
  if tt = "BUY" then
    match holding with
    | some h =>
      let new_quantity := h.quantity + quantity
      if new_quantity = 0 then st
      else
        { holdings := updateHolding st.holdings symbol
            { quantity := new_quantity,
              average_price :=
                (h.average_price * (h.quantity : ℚ) + price * (quantity : ℚ))
                  / (new_quantity : ℚ) },
          history := st.history ++ [newTrade] }
    | none =>
      { holdings := st.holdings ++ [(symbol, { quantity := quantity, average_price := price })],
        history := st.history ++ [newTrade] }
  else if tt = "SELL" then
    match holding with
    | some h =>
      if h.quantity < quantity then st
      else if h.quantity - quantity = 0 then
        { holdings := removeHolding st.holdings symbol,
          history := st.history ++ [newTrade] }
      else
        { holdings := updateHolding st.holdings symbol
            { quantity := h.quantity - quantity, average_price := h.average_price },
          history := st.history ++ [newTrade] }
    | none => st
  else
    { st with history := st.history ++ [newTrade] }

/-! ## Session IV tracker and strategies (`engine.py`) -/

/-- One entry of `self.session_iv_tracker`: the session high/low of the
at-the-money implied volatility. -/
structure Window where
  high : ℚ
  low : ℚ
deriving DecidableEq, Repr

/-- `TradingEngine.update_session_iv`, reduced to its state update (engine.py
lines 148-155).  The tracker dict `self.session_iv_tracker` is keyed by the
index name alone — the key carries no date and nothing ever clears the dict —
and the update either initialises the window to the observed ATM IV or widens
it with `max`/`min`.  The dict is embedded as an association list; the ATM-IV
extraction from the merged frame is `atmRow` below. -/
def update_session_iv (tracker : List (String × Window)) (index_name : String)
    (current_iv : ℚ) : List (String × Window) :=
  match lookupKey tracker index_name with
  | none => (index_name, { high := current_iv, low := current_iv }) :: tracker
  | some w =>
    tracker.map (fun p =>
      if p.1 = index_name then
        (index_name, { high := max w.high current_iv, low := min w.low current_iv })
      else p)

/-- One option row of the merged chain+Greeks frame `df_merged`, restricted to
the fields the strategies read: trading symbol, raw strike (the gateway
reports strikes multiplied by 100), market price `ltp_y` and `iv`. -/
structure OptionRow where
  symbol : String
  strike : ℚ
  ltp : ℚ
  iv : ℚ
deriving DecidableEq, Repr

/-- `df_merged['strike'].astype(float) / 100.0`. -/
def strike_price (row : OptionRow) : ℚ := row.strike / 100

/-- Python `s.endswith(t)` (`df_merged['symbol'].str.endswith('CE')`). -/
def pyEndsWith (s t : String) : Bool := t.data.isSuffixOf s.data

/-- The ATM row: the first row whose strike price has minimal absolute
distance from the underlying LTP
(`df.iloc[(df['strike_price'] - ltp).abs().argsort()[:1]]`), or `none` for an
empty frame, where `.iloc[0]` would raise. -/
def atmRow (rows : List OptionRow) (ltp : ℚ) : Option OptionRow :=
  rows.foldl
    (fun acc r =>
      match acc with
      | none => some r
      | some b => if |strike_price r - ltp| < |strike_price b - ltp| then some r else acc)
    none

/-- Session IV rank (engine.py lines 192-196): `50.0` when the day's IV range
is zero, otherwise `((current_iv - iv_low) / (iv_high - iv_low)) * 100`. -/
def sessionRank (w : Window) (current_iv : ℚ) : ℚ :=
  if w.high - w.low = 0 then 50 else ((current_iv - w.low) / (w.high - w.low)) * 100

/-- The configuration fields the expiry-straddle strategy reads. -/
structure StraddleConfig where
  max_iv_rank : ℚ
  expiry_weekday : ℕ
  strategy_start_time : ℚ
  trade_quantity : ℤ
deriving DecidableEq, Repr

/-- The clock values `execute_expiry_straddle_strategy` reads from
`datetime.now()`: the calendar date (as an absolute day count), the weekday
and the time of day. -/
structure Now where
  date : ℤ
  weekday : ℕ
  time : ℚ
deriving DecidableEq, Repr

/-- One `record_trade(symbol, "BUY", quantity, price, reason)` call issued by
the straddle strategy (the free-text reason is omitted from the embedding). -/
structure TradeCall where
  symbol : String
  side : String
  quantity : ℤ
  price : ℚ
deriving DecidableEq, Repr

/-- `self.expiry_trade_fired_today[index_name] = now.date()`. -/
def setFired (fired : List (String × ℤ)) (index_name : String) (d : ℤ) :
    List (String × ℤ) :=
  (index_name, d) :: fired.filter (fun p => p.1 ≠ index_name)

/-- `TradingEngine.execute_expiry_straddle_strategy` (engine.py lines 162-222)
as a pure function from the tracker, the fired guard, the clock, the merged
frame and the underlying LTP to the list of `record_trade` calls issued and
the updated fired guard.  The guard, weekday and start-time gates mirror
lines 168-174; a missing tracker entry, an empty frame, or a missing CE/PE
leg at the ATM strike (an exception caught by the handler at line 220) yields
no trades and leaves the guard unchanged. -/
def execute_expiry_straddle_strategy (cfg : StraddleConfig)
    (tracker : List (String × Window)) (fired : List (String × ℤ)) (now : Now)
    (index_name : String) (df : List OptionRow) (ltp : ℚ) :
    List TradeCall × List (String × ℤ) :=
  if lookupKey fired index_name = some now.date then ([], fired)
  else if now.weekday ≠ cfg.expiry_weekday ∨ now.time < cfg.strategy_start_time then ([], fired)
  else
    match lookupKey tracker index_name with
    | none => ([], fired)
    | some w =>
      match atmRow df ltp with
      | none => ([], fired)
      | some atm =>
        let rank := sessionRank w atm.iv
        if rank < cfg.max_iv_rank then
          match df.find? (fun r => decide (strike_price r = strike_price atm) && pyEndsWith r.symbol "CE"),
                df.find? (fun r => decide (strike_price r = strike_price atm) && pyEndsWith r.symbol "PE") with
          | some c, some p =>
            ([{ symbol := c.symbol, side := "BUY", quantity := cfg.trade_quantity, price := c.ltp },
              { symbol := p.symbol, side := "BUY", quantity := cfg.trade_quantity, price := p.ltp }],
             setFired fired index_name now.date)
          | _, _ => ([], fired)
        else ([], fired)

/-! ## Black-Scholes pricing (`pricing_model.py`) -/

/-- The standard normal density, the distribution behind `scipy`'s
`norm.cdf`. -/
noncomputable def gaussDensity (t : ℝ) : ℝ :=
  Real.exp (-(t ^ 2) / 2) / Real.sqrt (2 * Real.pi)

/-- The standard normal cumulative distribution function `norm.cdf`. -/
noncomputable def Phi (x : ℝ) : ℝ := ∫ t in Set.Iic x, gaussDensity t

/-- The `try` block of `black_scholes` (pricing_model.py lines 57-73).  The
guard collects exactly the exceptions the block catches and converts to `0`:
`ZeroDivisionError` from `S / K` when `K = 0` or from dividing by
`sigma * sqrt(T)` when that is zero, and `ValueError` from `log` on a
non-positive argument.  On the happy path, the CE formula
`S*Φ(d1) - K*exp(-r*T)*Φ(d2)`; the Python `else` branch prices every
non-`"CE"` type with the put formula. -/
noncomputable def bs_formula (option_type : String) (S K T r sigma : ℝ) : ℝ :=
  if K = 0 ∨ S / K ≤ 0 ∨ sigma * Real.sqrt T = 0 then 0
  else
    let d1 := (Real.log (S / K) + (r + 0.5 * sigma ^ 2) * T) / (sigma * Real.sqrt T)
    let d2 := d1 - sigma * Real.sqrt T
    if option_type = "CE" then S * Phi d1 - K * Real.exp (-r * T) * Phi d2
    else K * Real.exp (-r * T) * Phi (-d2) - S * Phi (-d1)

/-- `black_scholes` (pricing_model.py lines 14-73), with the expiry passed as
`time_to_expiry_days = (expiry_date - today).days`.  In order: the
option-type check, the non-negativity check on `S, K, r, sigma` (non-numeric
inputs are excluded by the embedding's types), the expired check, then the
formula at `T = (time_to_expiry_days + 1) / 365.0`. -/
noncomputable def black_scholes (option_type : String) (S K : ℝ)
    (time_to_expiry_days : ℤ) (r sigma : ℝ) : ℝ :=
  if option_type ≠ "CE" ∧ option_type ≠ "PE" then 0
  else if ¬(0 ≤ S ∧ 0 ≤ K ∧ 0 ≤ r ∧ 0 ≤ sigma) then 0
  else if time_to_expiry_days < 0 then 0
  else bs_formula option_type S K (((time_to_expiry_days : ℝ) + 1) / 365) r sigma

/-- The configuration fields the value strategy reads. -/
structure ValueConfig where
  trade_trigger_percentage : ℝ
  risk_free_rate : ℝ
  trade_quantity : ℤ

/-- The option fields `analyze_and_trade_value` reads, with the parsed expiry
carried as days from today. -/
structure OptionQuote where
  symbol : String
  strike : ℝ
  ltp : ℝ
  iv : ℝ
  expiry_days : ℤ

/-- Python `symbol[-2:]`: the last two characters (the whole string when it
is shorter). -/
def lastTwo (s : String) : String := String.mk (s.data.drop (s.data.length - 2))

/-- The BUY issued by the value strategy.  The Python reason f-string embeds
the fair value and the percentage difference; the embedding carries the two
numbers. -/
structure ValueTrade where
  symbol : String
  side : String
  quantity : ℤ
  price : ℝ
  reason_fair_value : ℝ
  reason_diff_pct : ℝ

/-- The trigger comparison of the value strategy (engine.py line 245):
`price_difference_pct > self.trade_trigger_percentage` with
`price_difference_pct = ((fair_value - market_price) / market_price) * 100`. -/
def value_trade_decision (trigger fair_value market_price : ℝ) : Prop :=
  (fair_value - market_price) / market_price * 100 > trigger

/-- `TradingEngine.analyze_and_trade_value` (engine.py lines 224-250) as a
pure function returning the `record_trade` call it issues, if any. -/
noncomputable def analyze_and_trade_value (cfg : ValueConfig) (q : OptionQuote)
    (underlying_ltp : ℝ) : Option ValueTrade :=
  let option_type := lastTwo q.symbol
  let market_price := q.ltp
  let implied_vol := q.iv / 100
  if market_price ≤ 0 ∨ implied_vol ≤ 0 then none
  else
    let fair_value := black_scholes option_type underlying_ltp (q.strike / 100)
      q.expiry_days cfg.risk_free_rate implied_vol
    if fair_value ≤ 0 then none
    else
      let price_difference_pct := (fair_value - market_price) / market_price * 100
      if price_difference_pct > cfg.trade_trigger_percentage then
        some { symbol := q.symbol, side := "BUY", quantity := cfg.trade_quantity,
               price := market_price, reason_fair_value := fair_value,
               reason_diff_pct := price_difference_pct }
      else none

/-! ## Ledger lemmas -/

theorem lookupKey_update_of_some {l : List (String × Holding)} {sym : String}
    {h0 : Holding} (h : Holding) (hl : lookupKey l sym = some h0) :
    lookupKey (updateHolding l sym h) sym = some h := by
  induction l with
  | nil => simp [lookupKey] at hl
  | cons p rest ih =>
    by_cases hp : p.1 = sym
    · simp [updateHolding, lookupKey, hp]
    · simp only [lookupKey, if_neg hp] at hl
      simpa [updateHolding, lookupKey, hp] using ih hl

theorem lookupKey_append_single {α : Type} (l : List (String × α)) (sym : String)
    (a : α) (hl : lookupKey l sym = none) :
    lookupKey (l ++ [(sym, a)]) sym = some a := by
  induction l with
  | nil => simp [lookupKey]
  | cons p rest ih =>
    by_cases hp : p.1 = sym
    · simp [lookupKey, hp] at hl
    · simp only [lookupKey, if_neg hp] at hl
      simpa [lookupKey, hp] using ih hl

theorem lookupKey_remove (l : List (String × Holding)) (sym : String) :
    lookupKey (removeHolding l sym) sym = none := by
  induction l with
  | nil => simp [removeHolding, lookupKey]
  | cons p rest ih =>
    by_cases hp : p.1 = sym
    · simpa [removeHolding, hp] using ih
    · simpa [removeHolding, lookupKey, hp] using ih

/-- C1: a SELL whose symbol has no holding row, or whose existing holding has
quantity strictly below the requested quantity, is rejected: `record_trade`
returns a state whose holdings and trade history are exactly the pre-state's
(the transaction is rolled back, so not even the history row survives). -/
theorem sell_insufficient_is_rejected (st : PortfolioState) (sym : String)
    (qty : ℤ) (price : ℚ) (reason : String)
    (h : lookupKey st.holdings sym = none ∨
         ∃ hold, lookupKey st.holdings sym = some hold ∧ hold.quantity < qty) :
    record_trade st sym "SELL" qty price reason = st := by
  have hU : pyUpper "SELL" = "SELL" := by decide
  rcases h with h | ⟨hold, hl, hqlt⟩
  · simp [record_trade, hU, h]
  · simp [record_trade, hU, hl, hqlt]

/-- C1 witness: a SELL against an empty ledger leaves it empty. -/
theorem sell_insufficient_is_rejected_witness :
    record_trade ⟨[], []⟩ "A" "SELL" 1 2 "r" = (⟨[], []⟩ : PortfolioState) :=
  sell_insufficient_is_rejected ⟨[], []⟩ "A" 1 2 "r" (Or.inl rfl)

/-- C3: a BUY with no existing holding creates the row
`(quantity, average_price) = (qty, price)`; a BUY against an existing holding
`(q, a)` yields quantity `q + qty` and the weighted average price
`(a*q + price*qty) / (q + qty)`; and on an empty ledger,
BUY(10 @ 100) then BUY(5 @ 130) yields quantity 15 at average exactly 110. -/
theorem buy_weighted_average (st : PortfolioState) (sym : String) (qty : ℤ)
    (price : ℚ) (reason : String) (hq : 0 < qty) :
    (lookupKey st.holdings sym = none →
      lookupKey (record_trade st sym "BUY" qty price reason).holdings sym =
        some { quantity := qty, average_price := price }) ∧
    (∀ q a, lookupKey st.holdings sym = some { quantity := q, average_price := a } →
      0 < q →
      lookupKey (record_trade st sym "BUY" qty price reason).holdings sym =
        some { quantity := q + qty,
               average_price := (a * (q : ℚ) + price * (qty : ℚ)) / ((q : ℚ) + (qty : ℚ)) }) ∧
    lookupKey
        (record_trade (record_trade ⟨[], []⟩ "NIFTY" "BUY" 10 100 "")
          "NIFTY" "BUY" 5 130 "").holdings "NIFTY" =
      some { quantity := 15, average_price := 110 } := by
  have hU : pyUpper "BUY" = "BUY" := by decide
  refine ⟨?_, ?_, ?_⟩
  · intro hl
    simp [record_trade, hU, hl]
    exact lookupKey_append_single st.holdings sym _ hl
  · intro q a hl hq0
    have hnz : q + qty ≠ 0 := by omega
    simp only [record_trade, hU, hl, if_true]
    rw [if_neg hnz]
    dsimp only
    rw [lookupKey_update_of_some _ hl]
    simp only [Option.some.injEq, Holding.mk.injEq]
    exact ⟨trivial, by push_cast; ring⟩
  · have h1 : lookupKey (record_trade ⟨[], []⟩ "NIFTY" "BUY" 10 100 "").holdings "NIFTY" =
        some { quantity := 10, average_price := 100 } := by
      simp [record_trade, hU, lookupKey]
    have h2 : (record_trade ⟨[], []⟩ "NIFTY" "BUY" 10 100 "").holdings =
        [("NIFTY", { quantity := 10, average_price := 100 })] := by
      simp [record_trade, hU, lookupKey]
    simp only [record_trade, hU, h1, if_pos rfl, h2]
    norm_num [updateHolding, lookupKey]

/-- C3 witness: a BUY of 3 units at price 7 on an empty ledger creates the
holding (3, 7). -/
theorem buy_weighted_average_witness :
    lookupKey (record_trade ⟨[], []⟩ "A" "BUY" 3 7 "").holdings "A" =
      some { quantity := 3, average_price := 7 } :=
  (buy_weighted_average ⟨[], []⟩ "A" 3 7 "" (by decide)).1 rfl

/-- C4: starting from a ledger with no zero-quantity row, `record_trade`
(with positive quantity) never produces a zero-quantity row; a SELL of the
exact held quantity deletes the holding row; a partial SELL decrements the
quantity and leaves the average price unchanged. -/
theorem sell_deletes_zero_holding (st : PortfolioState) (sym tt : String)
    (qty : ℤ) (price : ℚ) (reason : String)
    (hinv : ∀ p ∈ st.holdings, p.2.quantity ≠ 0) (hq : 0 < qty) :
    (∀ p ∈ (record_trade st sym tt qty price reason).holdings, p.2.quantity ≠ 0) ∧
    (∀ a, lookupKey st.holdings sym = some { quantity := qty, average_price := a } →
      lookupKey (record_trade st sym "SELL" qty price reason).holdings sym = none) ∧
    (∀ q a, lookupKey st.holdings sym = some { quantity := q, average_price := a } →
      qty < q →
      lookupKey (record_trade st sym "SELL" qty price reason).holdings sym =
        some { quantity := q - qty, average_price := a }) := by
  have hU : pyUpper "SELL" = "SELL" := by decide
  refine ⟨?_, ?_, ?_⟩
  · intro p hp
    by_cases hBuy : pyUpper tt = "BUY"
    · rcases hLook : lookupKey st.holdings sym with _ | h
      · simp only [record_trade, hBuy, if_pos rfl, hLook] at hp
        rcases List.mem_append.mp hp with hp | hp
        · exact hinv p hp
        · simp at hp
          subst hp
          simpa using hq.ne'
      · by_cases hz : h.quantity + qty = 0
        · simp only [record_trade, hBuy, if_pos rfl, hLook, if_pos hz] at hp
          exact hinv p hp
        · simp only [record_trade, hBuy, if_pos rfl, hLook, if_neg hz,
            updateHolding] at hp
          rcases List.mem_map.mp hp with ⟨p0, hp0, rfl⟩
          by_cases hps : p0.1 = sym
          · simpa [hps] using hz
          · simpa [hps] using hinv p0 hp0
    · by_cases hSell : pyUpper tt = "SELL"
      · rcases hLook : lookupKey st.holdings sym with _ | h
        · simpa only [record_trade, hBuy, hSell, if_neg hBuy, if_pos rfl, hLook] using
            hinv p (by simpa only [record_trade, hBuy, hSell, if_neg hBuy, if_pos rfl,
              hLook] using hp)
        · by_cases hins : h.quantity < qty
          · simp only [record_trade, hBuy, hSell, if_neg hBuy, if_pos rfl, hLook,
              if_pos hins] at hp
            exact hinv p hp
          · by_cases hzero : h.quantity - qty = 0
            · simp only [record_trade, hBuy, hSell, if_neg hBuy, if_pos rfl, hLook,
                if_neg hins, if_pos hzero, removeHolding] at hp
              exact hinv p (List.mem_of_mem_filter hp)
            · simp only [record_trade, hBuy, hSell, if_neg hBuy, if_pos rfl, hLook,
                if_neg hins, if_neg hzero, updateHolding] at hp
              rcases List.mem_map.mp hp with ⟨p0, hp0, rfl⟩
              by_cases hps : p0.1 = sym
              · simpa [hps] using hzero
              · simpa [hps] using hinv p0 hp0
      · simp only [record_trade, if_neg hBuy, if_neg hSell] at hp
        exact hinv p hp
  · intro a hl
    have hns : ¬ ((qty : ℤ) < qty) := lt_irrefl qty
    simp only [record_trade, hU, hl, if_true]
    rw [if_neg hns, if_pos (sub_self qty)]
    exact lookupKey_remove st.holdings sym
  · intro q a hl hlt
    have hns : ¬ (q < qty) := not_lt.mpr hlt.le
    have hnz : ¬ (q - qty = 0) := by omega
    simp only [record_trade, hU, hl, if_true]
    rw [if_neg hns, if_neg hnz]
    exact lookupKey_update_of_some _ hl

/-- C4 witness: selling the full held quantity of a symbol removes its
holding row. -/
theorem sell_deletes_zero_holding_witness :
    lookupKey (record_trade ⟨[("A", ⟨5, 100⟩)], []⟩ "A" "SELL" 5 1 "").holdings "A" =
      none :=
  (sell_deletes_zero_holding ⟨[("A", ⟨5, 100⟩)], []⟩ "A" "SELL" 5 1 ""
    (by decide) (by decide)).2.1 100 rfl

/-- C10: a trade whose upper-cased side is neither BUY nor SELL commits: the
history row (carrying the upper-cased side) is appended and the holdings are
completely unchanged — the side is never validated against BUY/SELL. -/
theorem unknown_side_commits_history (st : PortfolioState) (sym tt : String)
    (qty : ℤ) (price : ℚ) (reason : String)
    (h1 : pyUpper tt ≠ "BUY") (h2 : pyUpper tt ≠ "SELL") :
    record_trade st sym tt qty price reason =
      { st with history := st.history ++
          [{ symbol := sym, trade_type := pyUpper tt, quantity := qty,
             price := price, reason := reason }] } := by
  simp only [record_trade, if_neg h1, if_neg h2]

/-- C10 witness: side "hold" (upper-cased to "HOLD") appends a history row
and leaves the holdings table empty. -/
theorem unknown_side_commits_history_witness :
    record_trade ⟨[], []⟩ "A" "hold" 1 2 "r" =
      { holdings := [],
        history := [{ symbol := "A", trade_type := pyUpper "hold", quantity := 1,
                      price := 2, reason := "r" }] } :=
  unknown_side_commits_history ⟨[], []⟩ "A" "hold" 1 2 "r" (by decide) (by decide)

/-! ## Session IV tracker lemmas -/

theorem lookupKey_map_replace {α : Type} (l : List (String × α)) (sym : String)
    (v : α) {h0 : α} (hl : lookupKey l sym = some h0) :
    lookupKey (l.map (fun p => if p.1 = sym then (sym, v) else p)) sym = some v := by
  induction l with
  | nil => simp [lookupKey] at hl
  | cons p rest ih =>
    by_cases hp : p.1 = sym
    · simp [lookupKey, hp]
    · simp only [lookupKey, if_neg hp] at hl
      simpa [lookupKey, hp] using ih hl

theorem lookupKey_update_session_iv (tracker : List (String × Window))
    (sym : String) (iv : ℚ) {w : Window} (hl : lookupKey tracker sym = some w) :
    lookupKey (update_session_iv tracker sym iv) sym =
      some { high := max w.high iv, low := min w.low iv } := by
  simp only [update_session_iv, hl]
  exact lookupKey_map_replace tracker sym _ hl

theorem lookupKey_update_session_iv_none (tracker : List (String × Window))
    (sym : String) (iv : ℚ) (hl : lookupKey tracker sym = none) :
    lookupKey (update_session_iv tracker sym iv) sym =
      some { high := iv, low := iv } := by
  simp [update_session_iv, hl, lookupKey]

theorem foldl_update_session_iv (sym : String) (vs : List ℚ) :
    ∀ (t : List (String × Window)) (w : Window), lookupKey t sym = some w →
    ∃ w', lookupKey (vs.foldl (fun tr iv => update_session_iv tr sym iv) t) sym = some w' ∧
      (w'.high = w.high ∨ w'.high ∈ vs) ∧ (w'.low = w.low ∨ w'.low ∈ vs) ∧
      w.high ≤ w'.high ∧ (∀ x ∈ vs, x ≤ w'.high) ∧
      w'.low ≤ w.low ∧ (∀ x ∈ vs, w'.low ≤ x) := by
  induction vs with
  | nil =>
    intro t w hl
    exact ⟨w, hl, Or.inl rfl, Or.inl rfl, le_refl _, by simp, le_refl _, by simp⟩
  | cons iv vs ih =>
    intro t w hl
    obtain ⟨w', hw', hhi, hlo, hh, hall, hlow, hall2⟩ :=
      ih (update_session_iv t sym iv) { high := max w.high iv, low := min w.low iv }
        (lookupKey_update_session_iv t sym iv hl)
    refine ⟨w', by simpa using hw', ?_, ?_, ?_, ?_, ?_, ?_⟩
    · rcases hhi with h | h
      · rcases max_choice w.high iv with hmc | hmc
        · exact Or.inl (h.trans hmc)
        · exact Or.inr (by simp [h.trans hmc])
      · exact Or.inr (List.mem_cons_of_mem _ h)
    · rcases hlo with h | h
      · rcases min_choice w.low iv with hmc | hmc
        · exact Or.inl (h.trans hmc)
        · exact Or.inr (by simp [h.trans hmc])
      · exact Or.inr (List.mem_cons_of_mem _ h)
    · exact le_trans (le_max_left _ _) hh
    · intro x hx
      rcases List.mem_cons.mp hx with rfl | hx
      · exact le_trans (le_max_right _ _) hh
      · exact hall x hx
    · exact le_trans hlow (min_le_left _ _)
    · intro x hx
      rcases List.mem_cons.mp hx with rfl | hx
      · exact le_trans hlow (min_le_right _ _)
      · exact hall2 x hx

/-- C8: feeding a non-empty sequence of ATM-IV observations `v :: vs` for one
symbol into the (initially empty) session tracker yields a window whose high
is the maximum and whose low the minimum of the observations; the session IV
rank is `((iv - low) / (high - low)) * 100` when `high ≠ low` and exactly 50
when `high = low`. -/
theorem iv_window_max_min (sym : String) (v : ℚ) (vs : List ℚ) :
    (∃ w, lookupKey ((v :: vs).foldl (fun tr iv => update_session_iv tr sym iv) []) sym
        = some w ∧
      w.high ∈ v :: vs ∧ w.low ∈ v :: vs ∧
      (∀ x ∈ v :: vs, x ≤ w.high) ∧ (∀ x ∈ v :: vs, w.low ≤ x)) ∧
    (∀ (w : Window) (iv : ℚ), w.high ≠ w.low →
      sessionRank w iv = (iv - w.low) / (w.high - w.low) * 100) ∧
    (∀ (w : Window) (iv : ℚ), w.high = w.low → sessionRank w iv = 50) := by
  refine ⟨?_, ?_, ?_⟩
  · have h0 : lookupKey (update_session_iv [] sym v) sym =
        some { high := v, low := v } :=
      lookupKey_update_session_iv_none [] sym v rfl
    obtain ⟨w', hw', hhi, hlo, hh, hall, hlow, hall2⟩ :=
      foldl_update_session_iv sym vs _ _ h0
    refine ⟨w', by simpa [List.foldl_cons] using hw', ?_, ?_, ?_, ?_⟩
    · rcases hhi with h | h
      · simp [h]
      · exact List.mem_cons_of_mem _ h
    · rcases hlo with h | h
      · simp [h]
      · exact List.mem_cons_of_mem _ h
    · intro x hx
      rcases List.mem_cons.mp hx with rfl | hx
      · exact hh
      · exact hall x hx
    · intro x hx
      rcases List.mem_cons.mp hx with rfl | hx
      · exact hlow
      · exact hall2 x hx
  · intro w iv hne
    have hsub : w.high - w.low ≠ 0 := sub_ne_zero.mpr hne
    simp [sessionRank, hsub]
  · intro w iv he
    simp [sessionRank, he]

/-- C8 witness: the single observation 30 produces the window (30, 30), and
the rank at an equal high/low is 50. -/
theorem iv_window_max_min_witness :
    (∃ w, lookupKey (([30] : List ℚ).foldl
          (fun tr iv => update_session_iv tr "NIFTY" iv) []) "NIFTY" = some w ∧
      w.high ∈ [(30 : ℚ)] ∧ w.low ∈ [(30 : ℚ)] ∧
      (∀ x ∈ [(30 : ℚ)], x ≤ w.high) ∧ (∀ x ∈ [(30 : ℚ)], w.low ≤ x)) ∧
    (∀ (w : Window) (iv : ℚ), w.high ≠ w.low →
      sessionRank w iv = (iv - w.low) / (w.high - w.low) * 100) ∧
    (∀ (w : Window) (iv : ℚ), w.high = w.low → sessionRank w iv = 50) :=
  iv_window_max_min "NIFTY" 30 []

/-- C2 (refutation evidence): `update_session_iv` takes no date argument and
nothing ever clears `session_iv_tracker`, so an observation made on a
previous calendar day keeps contributing.  Observing IV 30 (one day) and
then IV 10 (the next day) for the same symbol leaves the window at
high 30 / low 10 — the stale 30 still forms the high — and the rank the
straddle would compute from it is 0, not "no data". -/
theorem session_iv_tracker_ignores_dates :
    lookupKey (update_session_iv (update_session_iv [] "NIFTY" 30) "NIFTY" 10)
        "NIFTY" = some { high := 30, low := 10 } ∧
    sessionRank { high := 30, low := 10 } 10 = 0 := by
  constructor
  · rw [lookupKey_update_session_iv _ _ _
      (lookupKey_update_session_iv_none [] "NIFTY" 30 rfl)]
    norm_num
  · norm_num [sessionRank]

/-! ## Expiry straddle strategy -/

/-- C5: when the straddle strategy activates (guard not fired today, expiry
weekday, past the start time, tracker data present, non-empty frame) and the
session IV rank is strictly below the threshold, exactly two BUY calls are
issued — the ATM call leg (symbol ending CE) and the ATM put leg (symbol
ending PE), each at its own market price — and the fired guard is set for
today, so a repeated invocation on the same date issues nothing; when the
rank is at or above the threshold, nothing is traded and the guard is left
unchanged. -/
theorem straddle_fires_once (cfg : StraddleConfig)
    (tracker : List (String × Window)) (fired : List (String × ℤ)) (now : Now)
    (idx : String) (df : List OptionRow) (ltp : ℚ) (w : Window)
    (atm c p : OptionRow)
    (hg : ¬ lookupKey fired idx = some now.date)
    (hw : now.weekday = cfg.expiry_weekday)
    (ht : ¬ now.time < cfg.strategy_start_time)
    (htr : lookupKey tracker idx = some w)
    (hatm : atmRow df ltp = some atm)
    (hc : df.find? (fun r => decide (strike_price r = strike_price atm)
        && pyEndsWith r.symbol "CE") = some c)
    (hp : df.find? (fun r => decide (strike_price r = strike_price atm)
        && pyEndsWith r.symbol "PE") = some p) :
    (sessionRank w atm.iv < cfg.max_iv_rank →
      execute_expiry_straddle_strategy cfg tracker fired now idx df ltp =
        ([{ symbol := c.symbol, side := "BUY", quantity := cfg.trade_quantity,
            price := c.ltp },
          { symbol := p.symbol, side := "BUY", quantity := cfg.trade_quantity,
            price := p.ltp }],
         setFired fired idx now.date) ∧
      pyEndsWith c.symbol "CE" = true ∧ pyEndsWith p.symbol "PE" = true ∧
      (∀ (tracker' : List (String × Window)) (df' : List OptionRow) (ltp' t' : ℚ)
          (wd' : ℕ),
        execute_expiry_straddle_strategy cfg tracker' (setFired fired idx now.date)
            { date := now.date, weekday := wd', time := t' } idx df' ltp' =
          ([], setFired fired idx now.date))) ∧
    (¬ sessionRank w atm.iv < cfg.max_iv_rank →
      execute_expiry_straddle_strategy cfg tracker fired now idx df ltp =
        ([], fired)) := by
  have hgate : ¬ (now.weekday ≠ cfg.expiry_weekday ∨
      now.time < cfg.strategy_start_time) := by
    push_neg
    exact ⟨hw, not_lt.mp ht⟩
  constructor
  · intro hrank
    refine ⟨?_, ?_, ?_, ?_⟩
    · simp only [execute_expiry_straddle_strategy, if_neg hg, if_neg hgate, htr,
        hatm, hc, hp, if_pos hrank]
    · have hfind := List.find?_some hc
      simp only [Bool.and_eq_true] at hfind
      exact hfind.2
    · have hfind := List.find?_some hp
      simp only [Bool.and_eq_true] at hfind
      exact hfind.2
    · intro tracker' df' ltp' t' wd'
      have hfired : lookupKey (setFired fired idx now.date) idx = some now.date := by
        simp [setFired, lookupKey]
      simp [execute_expiry_straddle_strategy, hfired]
  · intro hrank
    simp only [execute_expiry_straddle_strategy, if_neg hg, if_neg hgate, htr,
      hatm, if_neg hrank]

/-- C5 witness: on expiry day past the start time, with a rank of 50 against
a threshold of 60, the straddle issues exactly the CE and PE BUY legs and
sets the fired guard. -/
theorem straddle_fires_once_witness :
    execute_expiry_straddle_strategy
        { max_iv_rank := 60, expiry_weekday := 3, strategy_start_time := 0,
          trade_quantity := 1 }
        [("N", { high := 10, low := 10 })] []
        { date := 100, weekday := 3, time := 1 } "N"
        [{ symbol := "N10CE", strike := 10, ltp := 5, iv := 10 },
         { symbol := "N10PE", strike := 10, ltp := 6, iv := 10 }] 1 =
      ([{ symbol := "N10CE", side := "BUY", quantity := 1, price := 5 },
        { symbol := "N10PE", side := "BUY", quantity := 1, price := 6 }],
       setFired [] "N" 100) := by
  have hrank : sessionRank { high := 10, low := 10 } (10 : ℚ) < 60 := by
    have h : sessionRank { high := 10, low := 10 } (10 : ℚ) = 50 := by
      simp [sessionRank]
    rw [h]
    decide
  have hatm : atmRow
      [{ symbol := "N10CE", strike := 10, ltp := 5, iv := 10 },
       { symbol := "N10PE", strike := 10, ltp := 6, iv := 10 }] 1 =
      some { symbol := "N10CE", strike := 10, ltp := 5, iv := 10 } := by
    show List.foldl _ none _ = _
    rw [List.foldl_cons, List.foldl_cons, List.foldl_nil]
    exact if_neg (lt_irrefl _)
  have hc : List.find?
      (fun r => decide (strike_price r =
          strike_price { symbol := "N10CE", strike := 10, ltp := 5, iv := 10 })
        && pyEndsWith r.symbol "CE")
      [{ symbol := "N10CE", strike := 10, ltp := 5, iv := 10 },
       { symbol := "N10PE", strike := 10, ltp := 6, iv := 10 }] =
      some { symbol := "N10CE", strike := 10, ltp := 5, iv := 10 } := by
    apply List.find?_cons_of_pos
    rw [Bool.and_eq_true, decide_eq_true_eq]
    exact ⟨rfl, by decide⟩
  have hp : List.find?
      (fun r => decide (strike_price r =
          strike_price { symbol := "N10CE", strike := 10, ltp := 5, iv := 10 })
        && pyEndsWith r.symbol "PE")
      [{ symbol := "N10CE", strike := 10, ltp := 5, iv := 10 },
       { symbol := "N10PE", strike := 10, ltp := 6, iv := 10 }] =
      some { symbol := "N10PE", strike := 10, ltp := 6, iv := 10 } := by
    rw [List.find?_cons_of_neg]
    · apply List.find?_cons_of_pos
      rw [Bool.and_eq_true, decide_eq_true_eq]
      exact ⟨rfl, by decide⟩
    · rw [Bool.and_eq_true, decide_eq_true_eq]
      exact fun h => absurd h.2 (by decide)
  exact ((straddle_fires_once
      { max_iv_rank := 60, expiry_weekday := 3, strategy_start_time := 0,
        trade_quantity := 1 }
      [("N", { high := 10, low := 10 })] []
      { date := 100, weekday := 3, time := 1 } "N"
      [{ symbol := "N10CE", strike := 10, ltp := 5, iv := 10 },
       { symbol := "N10PE", strike := 10, ltp := 6, iv := 10 }] 1
      { high := 10, low := 10 }
      { symbol := "N10CE", strike := 10, ltp := 5, iv := 10 }
      { symbol := "N10CE", strike := 10, ltp := 5, iv := 10 }
      { symbol := "N10PE", strike := 10, ltp := 6, iv := 10 }
      (by decide) rfl (by decide) rfl hatm hc hp).1 hrank).1

/-! ## Pricing validation and the value strategy -/

/-- C7: `black_scholes` returns 0 without raising when the option type is not
CE/PE, when any of S, K, r, sigma is negative, or when the option is expired
(days to expiry < 0); otherwise it evaluates the pricing formula at
time-to-expiry `T = (days + 1) / 365` years. -/
theorem black_scholes_input_validation (typ : String) (S K : ℝ) (days : ℤ)
    (r sigma : ℝ) :
    (typ ≠ "CE" ∧ typ ≠ "PE" → black_scholes typ S K days r sigma = 0) ∧
    (S < 0 ∨ K < 0 ∨ r < 0 ∨ sigma < 0 → black_scholes typ S K days r sigma = 0) ∧
    (days < 0 → black_scholes typ S K days r sigma = 0) ∧
    ((typ = "CE" ∨ typ = "PE") → 0 ≤ S → 0 ≤ K → 0 ≤ r → 0 ≤ sigma → 0 ≤ days →
      black_scholes typ S K days r sigma =
        bs_formula typ S K (((days : ℝ) + 1) / 365) r sigma) := by
  refine ⟨?_, ?_, ?_, ?_⟩
  · intro h
    simp [black_scholes, h]
  · intro h
    have hval : ¬ (0 ≤ S ∧ 0 ≤ K ∧ 0 ≤ r ∧ 0 ≤ sigma) := by
      rcases h with h | h | h | h <;> intro hc <;>
        linarith [hc.1, hc.2.1, hc.2.2.1, hc.2.2.2]
    unfold black_scholes
    split_ifs <;> rfl
  · intro h
    unfold black_scholes
    split_ifs <;> rfl
  · intro htyp hS hK hr hsig hd
    have h1 : ¬ (typ ≠ "CE" ∧ typ ≠ "PE") := by
      rcases htyp with h | h <;> simp [h]
    have h2 : ¬ ¬ (0 ≤ S ∧ 0 ≤ K ∧ 0 ≤ r ∧ 0 ≤ sigma) :=
      not_not_intro ⟨hS, hK, hr, hsig⟩
    have h3 : ¬ days < 0 := not_lt.mpr hd
    unfold black_scholes
    rw [if_neg h1, if_neg h2, if_neg h3]

/-- C7 witness: an invalid option type prices at 0. -/
theorem black_scholes_input_validation_witness :
    black_scholes "XX" 1 1 5 0 1 = 0 :=
  (black_scholes_input_validation "XX" 1 1 5 0 1).1 ⟨by decide, by decide⟩

/-- C9: the value strategy issues a BUY of the configured quantity at the
market price — with the option type taken from the last two characters of the
symbol and the reason carrying fair value and diff percentage — exactly when
market price > 0, IV > 0, the computed fair value > 0 and the percentage
difference strictly exceeds the trigger; at threshold 15, market 100, a fair
value of 120 passes the trigger test and 110 does not. -/
theorem value_strategy_fires_iff (cfg : ValueConfig) (q : OptionQuote) (ltp : ℝ) :
    (analyze_and_trade_value cfg q ltp =
        some { symbol := q.symbol, side := "BUY", quantity := cfg.trade_quantity,
               price := q.ltp,
               reason_fair_value := black_scholes (lastTwo q.symbol) ltp
                 (q.strike / 100) q.expiry_days cfg.risk_free_rate (q.iv / 100),
               reason_diff_pct := (black_scholes (lastTwo q.symbol) ltp
                   (q.strike / 100) q.expiry_days cfg.risk_free_rate (q.iv / 100)
                 - q.ltp) / q.ltp * 100 } ↔
      0 < q.ltp ∧ 0 < q.iv / 100 ∧
        0 < black_scholes (lastTwo q.symbol) ltp (q.strike / 100) q.expiry_days
          cfg.risk_free_rate (q.iv / 100) ∧
        value_trade_decision cfg.trade_trigger_percentage
          (black_scholes (lastTwo q.symbol) ltp (q.strike / 100) q.expiry_days
            cfg.risk_free_rate (q.iv / 100)) q.ltp) ∧
    value_trade_decision 15 120 100 ∧ ¬ value_trade_decision 15 110 100 := by
  refine ⟨?_, by norm_num [value_trade_decision], by norm_num [value_trade_decision]⟩
  simp only [analyze_and_trade_value, value_trade_decision]
  constructor
  · intro h
    split_ifs at h with h1 h2 h3 <;>
      first
        | exact Option.noConfusion h
        | (push_neg at h1; exact ⟨h1.1, h1.2, not_le.mp h2, h3⟩)
  · rintro ⟨hmp, hiv, hfv, hdec⟩
    rw [if_neg (by push_neg; exact ⟨hmp, hiv⟩), if_neg (not_le.mpr hfv),
      if_pos hdec]

/-- C9 witness: the concrete trigger instances of the claim, by applying the
characterisation at a concrete configuration and quote. -/
theorem value_strategy_fires_iff_witness :
    value_trade_decision 15 120 100 ∧ ¬ value_trade_decision 15 110 100 :=
  (value_strategy_fires_iff
    ({ trade_trigger_percentage := 15, risk_free_rate := 0, trade_quantity := 1 })
    ({ symbol := "XCE", strike := 1, ltp := 1, iv := 1, expiry_days := 1 }) 1).2

/-! ## The standard normal CDF -/

open MeasureTheory Set

theorem gaussDensity_eq :
    gaussDensity = fun t => Real.exp (-(1 / 2 : ℝ) * t ^ 2) / Real.sqrt (2 * Real.pi) := by
  funext t
  unfold gaussDensity
  ring_nf

theorem gaussDensity_nonneg (t : ℝ) : 0 ≤ gaussDensity t :=
  div_nonneg (Real.exp_pos _).le (Real.sqrt_nonneg _)

theorem integrable_gaussDensity : Integrable gaussDensity := by
  rw [gaussDensity_eq]
  exact (integrable_exp_neg_mul_sq (by norm_num : (0 : ℝ) < 1 / 2)).div_const _

theorem integral_gaussDensity : ∫ t, gaussDensity t = 1 := by
  rw [gaussDensity_eq]
  rw [integral_div]
  rw [integral_gaussian]
  rw [div_eq_one_iff_eq (by positivity)]
  norm_num
  ring

theorem Phi_nonneg (x : ℝ) : 0 ≤ Phi x :=
  setIntegral_nonneg measurableSet_Iic fun t _ => gaussDensity_nonneg t

theorem Phi_le_one (x : ℝ) : Phi x ≤ 1 := by
  rw [← integral_gaussDensity]
  exact setIntegral_le_integral integrable_gaussDensity
    (Filter.Eventually.of_forall gaussDensity_nonneg)

theorem Phi_mono {x y : ℝ} (h : x ≤ y) : Phi x ≤ Phi y := by
  apply setIntegral_mono_set integrable_gaussDensity.integrableOn
    (Filter.Eventually.of_forall gaussDensity_nonneg)
  exact Filter.Eventually.of_forall fun t ht => Iic_subset_Iic.mpr h ht

theorem gaussDensity_neg (t : ℝ) : gaussDensity (-t) = gaussDensity t := by
  unfold gaussDensity
  ring_nf

theorem Phi_neg_eq (x : ℝ) : Phi (-x) = 1 - Phi x := by
  have h1 : Phi (-x) = ∫ t in Ioi x, gaussDensity t := by
    unfold Phi
    calc ∫ t in Iic (-x), gaussDensity t
        = ∫ t in Iic (-x), gaussDensity (-t) := by
          exact setIntegral_congr_fun measurableSet_Iic fun t _ =>
            (gaussDensity_neg t).symm
      _ = ∫ t in Ioi (- -x), gaussDensity t := integral_comp_neg_Iic (-x) _
      _ = ∫ t in Ioi x, gaussDensity t := by rw [neg_neg]
  have h2 : Phi x + ∫ t in Ioi x, gaussDensity t = 1 := by
    rw [← integral_gaussDensity]
    exact intervalIntegral.integral_Iic_add_Ioi integrable_gaussDensity.integrableOn
      integrable_gaussDensity.integrableOn
  rw [h1]
  linarith

theorem setIntegral_Iic_comp_add (f : ℝ → ℝ) (c a : ℝ) :
    ∫ u in Iic c, f (u + a) = ∫ t in Iic (c + a), f t := by
  have h1 : (fun u => (Iic (c + a)).indicator f (u + a)) =
      (Iic c).indicator (fun u => f (u + a)) := by
    funext u
    by_cases hu : u ≤ c
    · rw [indicator_of_mem (mem_Iic.mpr (by linarith)),
        indicator_of_mem (mem_Iic.mpr hu)]
    · rw [indicator_of_not_mem (by simp only [mem_Iic]; intro hh; exact hu (by linarith)),
        indicator_of_not_mem (by simpa [mem_Iic] using hu)]
  calc ∫ u in Iic c, f (u + a)
      = ∫ u, (Iic c).indicator (fun u => f (u + a)) u :=
        (integral_indicator measurableSet_Iic).symm
    _ = ∫ u, (Iic (c + a)).indicator f (u + a) := by rw [h1]
    _ = ∫ t, (Iic (c + a)).indicator f t := integral_add_right_eq_self _ a
    _ = ∫ t in Iic (c + a), f t := integral_indicator measurableSet_Iic

/-- The inequality behind the non-negativity of the Black-Scholes price:
translating the Gaussian by `a` and weighting by `exp m` dominates it on the
half-line below `m/a - a/2`. -/
theorem gauss_key (m a : ℝ) (ha : 0 < a) :
    Phi (m / a - a / 2) ≤ Real.exp m * Phi (m / a + a / 2) := by
  have hd : m / a - a / 2 + a = m / a + a / 2 := by ring
  have hpt : ∀ u ∈ Iic (m / a - a / 2),
      gaussDensity u ≤ Real.exp m * gaussDensity (u + a) := by
    intro u hu
    rw [mem_Iic] at hu
    unfold gaussDensity
    rw [mul_div_assoc']
    have hnum : Real.exp (-(u ^ 2) / 2) ≤
        Real.exp m * Real.exp (-((u + a) ^ 2) / 2) := by
      rw [← Real.exp_add]
      apply Real.exp_le_exp.mpr
      nlinarith [mul_le_mul_of_nonneg_right hu ha.le, div_mul_cancel₀ m ha.ne']
    gcongr
  have hInt1 : IntegrableOn gaussDensity (Iic (m / a - a / 2)) :=
    integrable_gaussDensity.integrableOn
  have hInt2 : IntegrableOn (fun u => Real.exp m * gaussDensity (u + a))
      (Iic (m / a - a / 2)) :=
    ((integrable_gaussDensity.comp_add_right a).const_mul _).integrableOn
  calc Phi (m / a - a / 2)
      = ∫ u in Iic (m / a - a / 2), gaussDensity u := rfl
    _ ≤ ∫ u in Iic (m / a - a / 2), Real.exp m * gaussDensity (u + a) :=
        setIntegral_mono_on hInt1 hInt2 measurableSet_Iic hpt
    _ = ∫ t in Iic (m / a - a / 2 + a), Real.exp m * gaussDensity t :=
        setIntegral_Iic_comp_add (fun t => Real.exp m * gaussDensity t) _ a
    _ = Real.exp m * ∫ t in Iic (m / a + a / 2), gaussDensity t := by
        rw [hd, integral_mul_left]
    _ = Real.exp m * Phi (m / a + a / 2) := rfl

/-- C6: for valid CE/PE inputs that reach the formula (S > 0, K > 0, r ≥ 0,
sigma > 0, T > 0), the CE price is `S·Φ(d1) − K·e^(−rT)·Φ(d2)` and the PE
price is `K·e^(−rT)·Φ(−d2) − S·Φ(−d1)`; both prices are non-negative, and
put-call parity `CE − PE = S − K·e^(−rT)` holds exactly over the reals. -/
theorem black_scholes_parity_nonneg (S K T r sigma : ℝ)
    (hS : 0 < S) (hK : 0 < K) (hr : 0 ≤ r) (hsig : 0 < sigma) (hT : 0 < T) :
    bs_formula "CE" S K T r sigma =
      S * Phi ((Real.log (S / K) + (r + 0.5 * sigma ^ 2) * T) / (sigma * Real.sqrt T))
        - K * Real.exp (-r * T) *
          Phi ((Real.log (S / K) + (r + 0.5 * sigma ^ 2) * T) / (sigma * Real.sqrt T)
            - sigma * Real.sqrt T) ∧
    bs_formula "PE" S K T r sigma =
      K * Real.exp (-r * T) *
          Phi (-((Real.log (S / K) + (r + 0.5 * sigma ^ 2) * T) / (sigma * Real.sqrt T)
            - sigma * Real.sqrt T))
        - S * Phi (-((Real.log (S / K) + (r + 0.5 * sigma ^ 2) * T)
            / (sigma * Real.sqrt T))) ∧
    0 ≤ bs_formula "CE" S K T r sigma ∧
    0 ≤ bs_formula "PE" S K T r sigma ∧
    bs_formula "CE" S K T r sigma - bs_formula "PE" S K T r sigma =
      S - K * Real.exp (-r * T) := by
  have hsqT : 0 < Real.sqrt T := Real.sqrt_pos.mpr hT
  have ha : 0 < sigma * Real.sqrt T := mul_pos hsig hsqT
  have hsqTsq : Real.sqrt T ^ 2 = T := Real.sq_sqrt hT.le
  have hguard : ¬ (K = 0 ∨ S / K ≤ 0 ∨ sigma * Real.sqrt T = 0) := by
    push_neg
    exact ⟨hK.ne', div_pos hS hK, ha.ne'⟩
  have hCE : bs_formula "CE" S K T r sigma =
      S * Phi ((Real.log (S / K) + (r + 0.5 * sigma ^ 2) * T) / (sigma * Real.sqrt T))
        - K * Real.exp (-r * T) *
          Phi ((Real.log (S / K) + (r + 0.5 * sigma ^ 2) * T) / (sigma * Real.sqrt T)
            - sigma * Real.sqrt T) := by
    simp only [bs_formula]
    rw [if_neg hguard, if_pos trivial]
  have hPE : bs_formula "PE" S K T r sigma =
      K * Real.exp (-r * T) *
          Phi (-((Real.log (S / K) + (r + 0.5 * sigma ^ 2) * T) / (sigma * Real.sqrt T)
            - sigma * Real.sqrt T))
        - S * Phi (-((Real.log (S / K) + (r + 0.5 * sigma ^ 2) * T)
            / (sigma * Real.sqrt T))) := by
    simp only [bs_formula]
    rw [if_neg hguard, if_neg (by decide : ¬ (("PE" : String) = "CE"))]
  have hd1 : (Real.log (S / K) + (r + 0.5 * sigma ^ 2) * T) / (sigma * Real.sqrt T)
      = (Real.log (S / K) + r * T) / (sigma * Real.sqrt T)
        + sigma * Real.sqrt T / 2 := by
    have key : ∀ s : ℝ, s ≠ 0 → s ^ 2 = T →
        (Real.log (S / K) + (r + 0.5 * sigma ^ 2) * T) / (sigma * s)
          = (Real.log (S / K) + r * T) / (sigma * s) + sigma * s / 2 := by
      intro s hs hsT
      subst hsT
      have hσ : sigma ≠ 0 := hsig.ne'
      field_simp
      ring
    exact key _ hsqT.ne' hsqTsq
  have harg : (Real.log (S / K) + r * T) / (sigma * Real.sqrt T)
        + sigma * Real.sqrt T / 2 - sigma * Real.sqrt T
      = (Real.log (S / K) + r * T) / (sigma * Real.sqrt T)
        - sigma * Real.sqrt T / 2 := by ring
  have hCE2 : bs_formula "CE" S K T r sigma =
      S * Phi ((Real.log (S / K) + r * T) / (sigma * Real.sqrt T)
          + sigma * Real.sqrt T / 2)
        - K * Real.exp (-r * T) *
          Phi ((Real.log (S / K) + r * T) / (sigma * Real.sqrt T)
            - sigma * Real.sqrt T / 2) := by
    rw [hCE, hd1, harg]
  have hPE2 : bs_formula "PE" S K T r sigma =
      K * Real.exp (-r * T) *
          Phi (-((Real.log (S / K) + r * T) / (sigma * Real.sqrt T)
            - sigma * Real.sqrt T / 2))
        - S * Phi (-((Real.log (S / K) + r * T) / (sigma * Real.sqrt T)
            + sigma * Real.sqrt T / 2)) := by
    rw [hPE, hd1, harg]
  have hk1 := gauss_key (Real.log (S / K) + r * T) (sigma * Real.sqrt T) ha
  have hk2 := gauss_key (-(Real.log (S / K) + r * T)) (sigma * Real.sqrt T) ha
  have hneg1 : -(Real.log (S / K) + r * T) / (sigma * Real.sqrt T)
        - sigma * Real.sqrt T / 2
      = -((Real.log (S / K) + r * T) / (sigma * Real.sqrt T)
        + sigma * Real.sqrt T / 2) := by ring
  have hneg2 : -(Real.log (S / K) + r * T) / (sigma * Real.sqrt T)
        + sigma * Real.sqrt T / 2
      = -((Real.log (S / K) + r * T) / (sigma * Real.sqrt T)
        - sigma * Real.sqrt T / 2) := by ring
  rw [hneg1, hneg2] at hk2
  have hKE : 0 < K * Real.exp (-r * T) := by positivity
  have hexpm : K * Real.exp (-r * T) * Real.exp (Real.log (S / K) + r * T) = S := by
    have hx : -r * T + (Real.log (S / K) + r * T) = Real.log (S / K) := by ring
    rw [mul_assoc, ← Real.exp_add, hx, Real.exp_log (div_pos hS hK)]
    field_simp
  have hexpm2 : S * Real.exp (-(Real.log (S / K) + r * T)) =
      K * Real.exp (-r * T) := by
    have hne : Real.exp (Real.log (S / K) + r * T) ≠ 0 := (Real.exp_pos _).ne'
    rw [Real.exp_neg]
    field_simp
    simp only [neg_mul] at hexpm ⊢
    linear_combination -hexpm
  refine ⟨hCE, hPE, ?_, ?_, ?_⟩
  · rw [hCE2]
    have h1 : K * Real.exp (-r * T) *
        Phi ((Real.log (S / K) + r * T) / (sigma * Real.sqrt T)
          - sigma * Real.sqrt T / 2) ≤
        K * Real.exp (-r * T) * (Real.exp (Real.log (S / K) + r * T) *
          Phi ((Real.log (S / K) + r * T) / (sigma * Real.sqrt T)
            + sigma * Real.sqrt T / 2)) :=
      mul_le_mul_of_nonneg_left hk1 hKE.le
    have h2 : K * Real.exp (-r * T) * (Real.exp (Real.log (S / K) + r * T) *
        Phi ((Real.log (S / K) + r * T) / (sigma * Real.sqrt T)
          + sigma * Real.sqrt T / 2)) =
        S * Phi ((Real.log (S / K) + r * T) / (sigma * Real.sqrt T)
          + sigma * Real.sqrt T / 2) := by
      rw [← mul_assoc, hexpm]
    linarith
  · rw [hPE2]
    have h1 : S * Phi (-((Real.log (S / K) + r * T) / (sigma * Real.sqrt T)
          + sigma * Real.sqrt T / 2)) ≤
        S * (Real.exp (-(Real.log (S / K) + r * T)) *
          Phi (-((Real.log (S / K) + r * T) / (sigma * Real.sqrt T)
            - sigma * Real.sqrt T / 2))) :=
      mul_le_mul_of_nonneg_left hk2 hS.le
    have h2 : S * (Real.exp (-(Real.log (S / K) + r * T)) *
        Phi (-((Real.log (S / K) + r * T) / (sigma * Real.sqrt T)
          - sigma * Real.sqrt T / 2))) =
        K * Real.exp (-r * T) *
          Phi (-((Real.log (S / K) + r * T) / (sigma * Real.sqrt T)
            - sigma * Real.sqrt T / 2)) := by
      rw [← mul_assoc, hexpm2]
    linarith
  · rw [hCE2, hPE2, Phi_neg_eq, Phi_neg_eq]
    ring

/-- C6 witness: at S = K = 1, T = 1, r = 0, sigma = 1 both legs price
non-negatively and parity holds. -/
theorem black_scholes_parity_nonneg_witness :
    0 ≤ bs_formula "CE" 1 1 1 0 1 ∧ 0 ≤ bs_formula "PE" 1 1 1 0 1 ∧
    bs_formula "CE" 1 1 1 0 1 - bs_formula "PE" 1 1 1 0 1 =
      1 - 1 * Real.exp (-0 * 1) :=
  ⟨(black_scholes_parity_nonneg 1 1 1 0 1 one_pos one_pos le_rfl one_pos
      one_pos).2.2.1,
   (black_scholes_parity_nonneg 1 1 1 0 1 one_pos one_pos le_rfl one_pos
      one_pos).2.2.2.1,
   (black_scholes_parity_nonneg 1 1 1 0 1 one_pos one_pos le_rfl one_pos
      one_pos).2.2.2.2⟩

end AlgoTrading
